import Mathlib

/-!
Shallow embedding of the SnapScribe core pipeline
(`src/core/preprocessing.py`, `src/core/ocr_engine.py`,
`src/core/postprocessing.py`, and the batch loop of `src/app.py`).

Images are embedded as explicit pixel matrices.  A PIL image of mode "L"
is a single-channel matrix (`Img.gray`); any other mode handled by the
code is a 3-channel matrix (`Img.color`).  On the PIL side a color pixel
is an (R, G, B) triple; after `pil_to_cv2` the same `Img.color`
constructor holds (B, G, R) triples, exactly as the numpy array does in
the source.  Fallible OpenCV calls are embedded in `Except PyErr`.

External, numerically opaque OpenCV routines (non-local-means denoising,
Canny edge detection, the Hough line transform, and the rotation-matrix +
`warpAffine` pair) are parameters of the embedding (`ExtOps`): every
theorem below holds for an arbitrary interpretation of those routines,
and witnesses instantiate them with concrete executable functions.
Angles (Python floats) are embedded as rationals.
-/

namespace SnapScribe

/-- Exceptions raised by the embedded cv2 calls.  `invalidChannels` is the
`cv2.error` raised by `cv2.cvtColor` when a 3/4-channel conversion such as
`COLOR_RGB2BGR` receives a single-channel array ("Invalid number of
channels in input image"). -/
inductive PyErr where
  | invalidChannels
  | other (msg : String)
deriving DecidableEq

/-- A pixel-matrix image: mode "L" (one channel) or a 3-channel image.
Channel values are naturals (uint8 contents; no arithmetic below overflows
or depends on the 0..255 bound). -/
inductive Img where
  | gray (rows : List (List Nat))
  | color (rows : List (List (Nat × Nat × Nat)))
deriving DecidableEq

/-- Swap the first and third channel of a pixel (RGB ↔ BGR). -/
def swapRB (p : Nat × Nat × Nat) : Nat × Nat × Nat :=
  (p.2.2, p.2.1, p.1)

/-- PIL `convert("L")` luminance of an (R, G, B) pixel: ITU-R 601-2
`L = R * 299/1000 + G * 587/1000 + B * 114/1000`, computed by PIL in
fixed point as `(19595 R + 38470 G + 7471 B + 2^15) >> 16`. -/
def pilLuma (p : Nat × Nat × Nat) : Nat :=
  (19595 * p.1 + 38470 * p.2.1 + 7471 * p.2.2 + 32768) / 65536

/-- `cv2.cvtColor(·, cv2.COLOR_GRAY2BGR)` on a 2-D array. -/
def cvtGRAY2BGR (rows : List (List Nat)) : List (List (Nat × Nat × Nat)) :=
  rows.map (·.map fun v => (v, v, v))

/-- `cv2.cvtColor(·, cv2.COLOR_BGR2GRAY)`: OpenCV fixed-point
`Y = (4899 R + 9617 G + 1868 B + 2^13) >> 14` on a (B, G, R) pixel. -/
def cvtBGR2GRAY (rows : List (List (Nat × Nat × Nat))) : List (List Nat) :=
  rows.map (·.map fun p => (1868 * p.1 + 9617 * p.2.1 + 4899 * p.2.2 + 8192) / 16384)

/-- `preprocessing.pil_to_cv2` (preprocessing.py lines 22-32):
`cv2.cvtColor(np.array(pil_image), cv2.COLOR_RGB2BGR)`.  For a mode-"L"
image `np.array` yields a 2-D array and `COLOR_RGB2BGR` raises a
channel-count `cv2.error`; for a color image the channels are swapped. -/
def pil_to_cv2 : Img → Except PyErr Img
  | .gray _ => .error .invalidChannels
  | .color rows => .ok (.color (rows.map (·.map swapRB)))

/-- `preprocessing.cv2_to_pil` (lines 35-46):
`cv2.cvtColor(·, cv2.COLOR_BGR2RGB)` then `Image.fromarray`.  The same
channel-count restriction applies. -/
def cv2_to_pil : Img → Except PyErr Img
  | .gray _ => .error .invalidChannels
  | .color rows => .ok (.color (rows.map (·.map swapRB)))

/-- The single-channel rows of the grayscale version of an image
(identity on mode "L", PIL luminance conversion otherwise). -/
def grayRowsOf : Img → List (List Nat)
  | .gray rows => rows
  | .color rows => rows.map (·.map pilLuma)

/-- `preprocessing.to_grayscale` (lines 49-61): returns the image itself
when the mode is already "L", else `image.convert("L")`. -/
def to_grayscale : Img → Img
  | .gray rows => .gray rows
  | .color rows => .gray (rows.map (·.map pilLuma))

/-- `cv2.threshold(·, thresh, maxval, cv2.THRESH_BINARY)` applied
channel-wise: a value becomes `maxval` when strictly above `thresh`,
else 0.  (`thresh` is a Python float/int; values compared as integers.) -/
def cv2_threshold_binary (thresh : Int) (maxval : Nat) : Img → Img
  | .gray rows => .gray (rows.map (·.map fun v => if thresh < (v : Int) then maxval else 0))
  | .color rows =>
      .color (rows.map (·.map fun p =>
        (if thresh < (p.1 : Int) then maxval else 0,
         if thresh < (p.2.1 : Int) then maxval else 0,
         if thresh < (p.2.2 : Int) then maxval else 0)))

/-- `preprocessing.apply_threshold` (lines 64-88) with an integer
`threshold_value`: grayscale-convert, `pil_to_cv2`, binary threshold at
`(threshold_value, 255)`, `Image.fromarray`.  (The `threshold_value is
None` Otsu branch of the source is not modelled: every claim supplies an
integer threshold, and the `pil_to_cv2` call precedes both branches.) -/
def apply_threshold (image : Img) (threshold_value : Int) : Except PyErr Img := do
  let gray := to_grayscale image
  let cv2_image ← pil_to_cv2 gray
  return cv2_threshold_binary threshold_value 255 cv2_image

/-- The external image routines the pipeline delegates to.  Theorems are
proved for an arbitrary interpretation. -/
structure ExtOps where
  /-- `cv2.fastNlMeansDenoising(img, h=strength)` on a BGR matrix. -/
  fastNlMeansDenoising : Int → List (List (Nat × Nat × Nat)) → List (List (Nat × Nat × Nat))
  /-- `cv2.fastNlMeansDenoisingColored(img, h=strength)` on a BGR matrix. -/
  fastNlMeansDenoisingColored : Int → List (List (Nat × Nat × Nat)) → List (List (Nat × Nat × Nat))
  /-- `cv2.Canny(gray, 50, 150)`. -/
  canny : List (List Nat) → Nat → Nat → List (List Nat)
  /-- `cv2.HoughLines(edges, 1, pi/180, 100)`: `none` models the `None`
  return, `some lines` a list of (rho, theta) pairs. -/
  houghLines : List (List Nat) → ℚ → ℚ → Nat → Option (List (ℚ × ℚ))
  /-- `cv2.getRotationMatrix2D(center, angle, 1.0)` followed by
  `cv2.warpAffine(img, M, (w, h), borderMode=BORDER_REFLECT,
  flags=INTER_LINEAR)`, abstracted as one routine of the center, the
  angle, the (w, h) size and the image. -/
  warpAffine : (Int × Int) → ℚ → (Nat × Nat) → Img → Img

/-- `preprocessing.denoise` (lines 91-114): clamps `strength` to [1, 30],
then branches on the mode, preserving channel count. -/
def denoise (ops : ExtOps) (image : Img) (strength : Int) : Img :=
  let strength := max 1 (min 30 strength)
  match image with
  | .gray rows =>
      -- cv2.cvtColor(np.array(image), cv2.COLOR_GRAY2BGR), denoise, back to gray
      let cv2_image := cvtGRAY2BGR rows
      let denoised := ops.fastNlMeansDenoising strength cv2_image
      .gray (cvtBGR2GRAY denoised)
  | .color rows =>
      -- pil_to_cv2 (succeeds: 3-channel input), colored denoise, cv2_to_pil
      let cv2_image := rows.map (·.map swapRB)
      let denoised := ops.fastNlMeansDenoisingColored strength cv2_image
      .color (denoised.map (·.map swapRB))

/-- The rational standing in for the Python float `math.pi` / `np.pi`. -/
def piQ : ℚ := 3.141592653589793

/-- `np.degrees`: multiply by 180/pi. -/
def degreesQ (t : ℚ) : ℚ := t * (180 / piQ)

/-- `np.median` on a list of rationals: sort, take the middle element,
or the mean of the two middle elements for an even length. -/
def medianQ (l : List ℚ) : ℚ :=
  let s := List.insertionSort (· ≤ ·) l
  let n := l.length
  if n % 2 = 1 then s.getD (n / 2) 0
  else (s.getD (n / 2 - 1) 0 + s.getD (n / 2) 0) / 2

/-- `preprocessing.estimate_skew_angle` (lines 117-158): grayscale,
GRAY2BGR then BGR2GRAY round trip into Canny, Hough transform; 0.0 when
no lines are found, else the median line angle wrapped into [-45, 45]. -/
def estimate_skew_angle (ops : ExtOps) (image : Img) : ℚ :=
  let gray := grayRowsOf image
  let cv2_image := cvtGRAY2BGR gray
  let edges := ops.canny (cvtBGR2GRAY cv2_image) 50 150
  match ops.houghLines edges 1 (piQ / 180) 100 with
  | none => 0
  | some lines =>
      if lines.length = 0 then 0
      else
        let angles := lines.map fun rt => degreesQ rt.2 - 90
        let median_angle := medianQ angles
        if 45 < median_angle then median_angle - 90
        else if median_angle < -45 then median_angle + 90
        else median_angle

/-- Height of the underlying matrix. -/
def imgHeight : Img → Nat
  | .gray rows => rows.length
  | .color rows => rows.length

/-- Width of the underlying matrix. -/
def imgWidth : Img → Nat
  | .gray rows => (rows.headD []).length
  | .color rows => (rows.headD []).length

/-- `preprocessing.deskew` (lines 161-193): estimate the angle, return
the image untouched when `abs(angle) > max_angle`, otherwise convert with
`pil_to_cv2` (which raises on mode-"L" input), rotate and convert back. -/
def deskew (ops : ExtOps) (image : Img) (max_angle : ℚ) : Except PyErr Img :=
  let angle := estimate_skew_angle ops image
  if max_angle < |angle| then .ok image
  else do
    let cv2_image ← pil_to_cv2 image
    let h := imgHeight cv2_image
    let w := imgWidth cv2_image
    let center := (((w : Int)) / 2, ((h : Int)) / 2)
    let rotated := ops.warpAffine center angle (w, h) cv2_image
    cv2_to_pil rotated

/-- The preprocessing options dictionary.  A `none` field means the key
is absent and `config.get(key, default)` falls back to the default. -/
structure PreConfig where
  grayscale : Option Bool := none
  denoise_enabled : Option Bool := none
  denoise_strength : Option Int := none
  deskew_enabled : Option Bool := none
  max_angle : Option ℚ := none
  threshold_enabled : Option Bool := none
  threshold_value : Option Int := none

/-- `preprocessing.preprocess_image` (lines 196-237) for an explicit
config dictionary: grayscale (default on), denoise (default on, strength
default 10), deskew (default off, max angle default 10), threshold
(default on, value default 127). -/
def preprocess_image (ops : ExtOps) (image : Img) (config : PreConfig) : Except PyErr Img := do
  let processed := image
  let processed := if config.grayscale.getD true then to_grayscale processed else processed
  let processed :=
    if config.denoise_enabled.getD true then
      denoise ops processed (config.denoise_strength.getD 10)
    else processed
  let processed ←
    if config.deskew_enabled.getD false then
      deskew ops processed (config.max_angle.getD 10)
    else pure processed
  let processed ←
    if config.threshold_enabled.getD true then
      apply_threshold processed (config.threshold_value.getD 127)
    else pure processed
  return processed

/-! ### OCR engine (`src/core/ocr_engine.py`) -/

/-- The per-word table returned by `pytesseract.image_to_data(...,
output_type=Output.DICT)`: the "text" column and the "conf" column (the
latter already coerced by `int(conf)` as the source does). -/
structure TessData where
  text : List String
  conf : List Int
deriving DecidableEq

/-- `ocr_engine.extract_text_with_confidence` (lines 121-152), success
path, as a function of the engine's data table: joins the nonblank words
with spaces, and averages the confidences that pass `int(conf) > 0`,
defaulting to 0.0 when none pass. -/
def extract_text_with_confidence (data : TessData) : String × ℚ :=
  let text := " ".intercalate (data.text.filter fun word => word.trim ≠ "")
  let confidences := data.conf.filter fun c => 0 < c
  let avg_confidence : ℚ :=
    if confidences = [] then 0 else (confidences.sum : ℚ) / confidences.length
  (text, avg_confidence)

/-- Written from the claim's words, for comparison with the source: the
arithmetic mean of all measured confidences, excluding only the engine's
unknown sentinel -1 (so a measured confidence of 0 is included), and 0
when no measured confidences exist. -/
def claimedAvgConfidence (conf : List Int) : ℚ :=
  let measured := conf.filter fun c => c ≠ -1
  if measured = [] then 0 else (measured.sum : ℚ) / measured.length

/-- Written from the amended claim's words: the arithmetic mean of the
strictly positive confidences (both the -1 sentinel and zero or negative
values are dropped), or 0 when none are strictly positive. -/
def positiveMeanConfidence (conf : List Int) : ℚ :=
  let measured := conf.filter fun c => 0 < c
  if measured = [] then 0 else (measured.sum : ℚ) / measured.length

/-- A PIL image object as `ocr_engine.validate_image_for_ocr` observes
it: attribute accesses and conversions that may raise on a malformed
object are embedded as `Except`. -/
structure PilImage where
  /-- The `image.size` attribute, `(width, height)`. -/
  size : Except String (Nat × Nat)
  /-- `list(image.convert("L").getdata())`. -/
  convertL_data : Except String (List Nat)

/-- Python `min` over a nonempty list of naturals (callers guard
emptiness, as the source does). -/
def pyMin (l : List Nat) : Nat := l.foldl min (l.headD 0)

/-- Python `max` over a nonempty list of naturals. -/
def pyMax (l : List Nat) : Nat := l.foldl max (l.headD 0)

/-- `ocr_engine.validate_image_for_ocr` (lines 155-200): `None` check,
then a `try` block (dimension check, pixel-data check, contrast check)
whose every raised exception is caught and mapped to
`(False, "Error validating image: ...")`. -/
def validate_image_for_ocr (image : Option PilImage) : Bool × Option String :=
  match image with
  | none => (false, some "Image is None")
  | some img =>
    match img.size with
    | .error e => (false, some ("Error validating image: " ++ e))
    | .ok (width, height) =>
      if width < 20 ∨ height < 20 then
        (false, some ("Image too small (" ++ toString width ++ "x" ++ toString height ++
          "). Minimum is 20x20 pixels."))
      else
        match img.convertL_data with
        | .error e => (false, some ("Error validating image: " ++ e))
        | .ok pixels =>
          if pixels = [] then (false, some "Image has no pixel data")
          else
            let min_pixel := pyMin pixels
            let max_pixel := pyMax pixels
            let pixel_range := max_pixel - min_pixel
            if pixel_range < 10 then
              (false, some "Image appears to be blank or nearly uniform (insufficient contrast)")
            else (true, none)

/-! ### Text postprocessing (`src/core/postprocessing.py`)

Text is embedded as `List Char`. -/

/-- Python `str` whitespace (the ASCII whitespace characters; the
non-ASCII Unicode spaces Python also strips play no role in any claim). -/
def pyIsSpace (c : Char) : Bool :=
  c = ' ' ∨ c = '\t' ∨ c = '\n' ∨ c = '\r' ∨ c = '\x0b' ∨ c = '\x0c'

/-- `re.sub(r' +', ' ', text)`: collapse each maximal run of space
characters to a single space. -/
def collapseSpaces : List Char → List Char
  | [] => []
  | [c] => [c]
  | c :: d :: t =>
      if c = ' ' ∧ d = ' ' then collapseSpaces (d :: t)
      else c :: collapseSpaces (d :: t)

/-- `text.replace('\t', ' ')`. -/
def replaceTabs (text : List Char) : List Char :=
  text.map fun c => if c = '\t' then ' ' else c

/-- Python `text.split('\n')`. -/
def splitNl : List Char → List (List Char)
  | [] => [[]]
  | c :: t =>
      if c = '\n' then [] :: splitNl t
      else
        match splitNl t with
        | [] => [[c]]
        | h :: r => (c :: h) :: r

/-- Python `'\n'.join(lines)`. -/
def joinNl : List (List Char) → List Char
  | [] => []
  | [l] => l
  | l :: ls => l ++ '\n' :: joinNl ls

/-- Python `line.strip()`: drop leading and trailing whitespace. -/
def pyStrip (l : List Char) : List Char :=
  ((l.dropWhile pyIsSpace).reverse.dropWhile pyIsSpace).reverse

/-- `postprocessing.remove_extra_whitespace` (lines 26-52): collapse
space runs, turn tabs into spaces, then strip every line. -/
def remove_extra_whitespace (text : List Char) : List Char :=
  let text := collapseSpaces text
  let text := replaceTabs text
  let lines := splitNl text
  let lines := lines.map pyStrip
  joinNl lines

/-- `text.replace('\r\n', '\n')`: left-to-right non-overlapping
replacement of CRLF pairs. -/
def replaceCRLF : List Char → List Char
  | [] => []
  | '\r' :: '\n' :: t => '\n' :: replaceCRLF t
  | c :: t => c :: replaceCRLF t

/-- `postprocessing.fix_line_breaks` (lines 55-75): CRLF to LF, then
lone CR to LF. -/
def fix_line_breaks (text : List Char) : List Char :=
  (replaceCRLF text).map fun c => if c = '\r' then '\n' else c

/-- `postprocessing.remove_empty_lines` (lines 78-91): keep the lines
whose `strip()` is nonempty. -/
def remove_empty_lines (text : List Char) : List Char :=
  joinNl ((splitNl text).filter fun line => pyStrip line ≠ [])

/-- `postprocessing.normalize_quotes` (lines 183-205): map the curly
double and single quotes, the backtick (char 96) and the acute accent to
ASCII `"` and `'` (char 39). -/
def normalize_quotes (text : List Char) : List Char :=
  text.map fun c =>
    if c = '“' then '"'
    else if c = '”' then '"'
    else if c = '‘' then Char.ofNat 39
    else if c = '’' then Char.ofNat 39
    else if c = Char.ofNat 96 then Char.ofNat 39
    else if c = '´' then Char.ofNat 39
    else c

/-- `postprocessing.clean_text` (lines 208-244): quotes, line breaks,
whitespace, blank removal, each gated by its flag (the `isinstance`
coercion is the identity here: the input is already text). -/
def clean_text (text : List Char) (remove_extra_spaces fix_breaks remove_blanks
    normalize_quotes_mode : Bool) : List Char :=
  let text := if normalize_quotes_mode then normalize_quotes text else text
  let text := if fix_breaks then fix_line_breaks text else text
  let text := if remove_extra_spaces then remove_extra_whitespace text else text
  let text := if remove_blanks then remove_empty_lines text else text
  text

/-! ### Batch loop (`src/app.py` lines 513-558)

Per loaded unit `(filename, image)` the loop runs preprocessing, OCR and
cleanup inside a `try`, appending `{'filename', 'text'}` to
`batch_results` on success and `(filename, str(e))` to `errors` on any
exception.  The per-unit pipeline ends at the external OCR engine, so it
is abstracted as a parameter `proc`. -/

/-- The batch loop of `app.py`: fold over the units, appending each
result to the success or the error accumulator. -/
def run_batch (proc : String × Img → Except String String)
    (units : List (String × Img)) : List (String × String) × List (String × String) :=
  units.foldl
    (fun acc u =>
      match proc u with
      | .ok text => (acc.1 ++ [(u.1, text)], acc.2)
      | .error e => (acc.1, acc.2 ++ [(u.1, e)]))
    ([], [])

/-- The successful `(filename, text)` results of a unit list, in input
order. -/
def batch_oks (proc : String × Img → Except String String)
    (units : List (String × Img)) : List (String × String) :=
  units.filterMap fun u =>
    match proc u with
    | .ok text => some (u.1, text)
    | .error _ => none

/-- The `(filename, error)` entries of a unit list, in input order. -/
def batch_errs (proc : String × Img → Except String String)
    (units : List (String × Img)) : List (String × String) :=
  units.filterMap fun u =>
    match proc u with
    | .ok _ => none
    | .error e => some (u.1, e)

/-! ### Concrete instances used by witnesses -/

/-- An interpretation of the external routines in which the Hough
transform finds no lines. -/
def opsNoLines : ExtOps where
  fastNlMeansDenoising := fun _ m => m
  fastNlMeansDenoisingColored := fun _ m => m
  canny := fun m _ _ => m
  houghLines := fun _ _ _ _ => none
  warpAffine := fun _ _ _ m => m

/-- An interpretation in which the Hough transform finds one line of
angle theta = (2/3) pi radians, i.e. 120 degrees, so the estimated skew
angle is 120 - 90 = 30 degrees. -/
def opsSkew30 : ExtOps where
  fastNlMeansDenoising := fun _ m => m
  fastNlMeansDenoisingColored := fun _ m => m
  canny := fun m _ _ => m
  houghLines := fun _ _ _ _ => some [(1, 2 / 3 * piQ)]
  warpAffine := fun _ _ _ m => m

/-- A small concrete mode-"L" image. -/
def imgG1 : Img := .gray [[0, 1], [2, 3]]

/-- A small concrete color image. -/
def imgC1 : Img := .color [[(1, 2, 3), (4, 5, 6)], [(7, 8, 9), (10, 11, 12)]]

/-- The config with every preprocessing step explicitly disabled. -/
def cfgAllOff : PreConfig where
  grayscale := some false
  denoise_enabled := some false
  deskew_enabled := some false
  threshold_enabled := some false

/-- A three-unit batch in which the second unit fails during
recognition. -/
def proc3 : String × Img → Except String String := fun u =>
  if u.1 = "img2" then .error "ocr failed" else .ok ("text of " ++ u.1)

/-- The invariant established by `re.sub(r' +', ' ')`: no two adjacent
space characters. -/
def noSS (l : List Char) : Prop :=
  l.Chain' fun a b => ¬(a = ' ' ∧ b = ' ')

/-! ## Shared helper lemmas -/

/-- `apply_threshold` raises on every input: `to_grayscale` always
produces a mode-"L" image, and `pil_to_cv2` applies `COLOR_RGB2BGR` to
its single-channel array, which `cv2.cvtColor` rejects. -/
theorem apply_threshold_raises (image : Img) (threshold_value : Int) :
    apply_threshold image threshold_value = .error .invalidChannels := by
  cases image <;> rfl

/-- Clamping `[1, 30]` twice equals clamping once. -/
theorem clamp_strength_idem (s : Int) :
    max 1 (min 30 (max 1 (min 30 s))) = max 1 (min 30 s) := by
  simp only [max_def, min_def]
  split_ifs <;> omega

/-- The batch loop accumulates exactly the successes and the failures,
each in input order. -/
theorem run_batch_spec (proc : String × Img → Except String String)
    (units : List (String × Img)) :
    run_batch proc units = (batch_oks proc units, batch_errs proc units) := by
  suffices h : ∀ acc : List (String × String) × List (String × String),
      units.foldl
        (fun acc u =>
          match proc u with
          | .ok text => (acc.1 ++ [(u.1, text)], acc.2)
          | .error e => (acc.1, acc.2 ++ [(u.1, e)]))
        acc = (acc.1 ++ batch_oks proc units, acc.2 ++ batch_errs proc units) by
    simpa [run_batch] using h ([], [])
  induction units with
  | nil => intro acc; simp [batch_oks, batch_errs]
  | cons u rest ih =>
      intro acc
      cases hp : proc u <;>
        simp [hp, batch_oks, batch_errs, List.filterMap_cons, ih]

/-! ### Lemma battery for `remove_extra_whitespace` (claim C4) -/

/-- `pyStrip` phrased with `rdropWhile`. -/
theorem pyStrip_eq_rdrop (l : List Char) :
    pyStrip l = (l.dropWhile pyIsSpace).rdropWhile pyIsSpace := rfl

/-- A stripped string has no leading whitespace left. -/
theorem dropWhile_pyStrip (l : List Char) :
    (pyStrip l).dropWhile pyIsSpace = pyStrip l := by
  rw [pyStrip_eq_rdrop]
  cases hu : l.dropWhile pyIsSpace with
  | nil => simp [List.rdropWhile]
  | cons a t =>
      have ha : ¬ pyIsSpace a = true := by
        have h := List.head?_dropWhile_not pyIsSpace l
        rw [hu] at h
        simpa using h
      cases ht : (a :: t).rdropWhile pyIsSpace with
      | nil => simp
      | cons b s =>
          obtain ⟨t₂, h2⟩ := List.rdropWhile_prefix pyIsSpace (a :: t)
          rw [ht, List.cons_append] at h2
          injection h2 with hb _
          subst hb
          exact List.dropWhile_cons_of_neg ha

/-- Python `strip` is idempotent. -/
theorem pyStrip_idem (l : List Char) : pyStrip (pyStrip l) = pyStrip l := by
  rw [pyStrip_eq_rdrop (pyStrip l), dropWhile_pyStrip, pyStrip_eq_rdrop l,
    List.rdropWhile_idempotent]

/-- `strip` only removes characters. -/
theorem mem_pyStrip {a : Char} {l : List Char} (h : a ∈ pyStrip l) : a ∈ l := by
  unfold pyStrip at h
  rw [List.mem_reverse] at h
  have h1 : a ∈ (l.dropWhile pyIsSpace).reverse := List.dropWhile_subset _ h
  rw [List.mem_reverse] at h1
  exact List.dropWhile_subset _ h1

/-- `noSS` is preserved by `reverse` (the adjacency condition is
symmetric). -/
theorem noSS_reverse {l : List Char} (h : noSS l) : noSS l.reverse := by
  unfold noSS at h ⊢
  rw [List.chain'_reverse]
  exact h.imp fun a b hab hba => hab ⟨hba.2, hba.1⟩

/-- Stripping preserves the no-double-space invariant. -/
theorem noSS_pyStrip {l : List Char} (h : noSS l) : noSS (pyStrip l) := by
  have h1 : noSS (l.dropWhile pyIsSpace) := h.suffix (List.dropWhile_suffix _)
  have h2 := noSS_reverse h1
  have h3 : noSS ((l.dropWhile pyIsSpace).reverse.dropWhile pyIsSpace) :=
    h2.suffix (List.dropWhile_suffix _)
  exact noSS_reverse h3

/-- After the survivor of a space run, `collapseSpaces` keeps the head. -/
theorem collapseSpaces_head_of_ne (d : Char) (t : List Char) (hd : ¬ d = ' ') :
    (collapseSpaces (d :: t)).head? = some d := by
  cases t with
  | nil => rfl
  | cons e t' =>
      simp only [collapseSpaces]
      rw [if_neg fun h => hd h.1]
      rfl

/-- The output of `collapseSpaces` has no two adjacent spaces. -/
theorem noSS_collapseSpaces (l : List Char) : noSS (collapseSpaces l) := by
  induction l using collapseSpaces.induct with
  | case1 => exact List.chain'_nil
  | case2 c => exact List.chain'_singleton c
  | case3 c d t hcd ih =>
      simp only [collapseSpaces]
      rw [if_pos hcd]
      exact ih
  | case4 c d t hcd ih =>
      simp only [collapseSpaces]
      rw [if_neg hcd]
      refine List.chain'_cons'.mpr ⟨?_, ih⟩
      intro y hy
      rintro ⟨hc, hy'⟩
      have hd : ¬ d = ' ' := fun hd => hcd ⟨hc, hd⟩
      rw [collapseSpaces_head_of_ne d t hd] at hy
      simp only [Option.mem_def, Option.some.injEq] at hy
      exact hd (hy ▸ hy')

/-- `collapseSpaces` is the identity on space-run-free strings. -/
theorem collapseSpaces_of_noSS (l : List Char) : noSS l → collapseSpaces l = l := by
  induction l using collapseSpaces.induct with
  | case1 => intro _; rfl
  | case2 c => intro _; rfl
  | case3 c d t hcd ih =>
      intro h
      exact absurd hcd (List.chain'_cons.mp h).1
  | case4 c d t hcd ih =>
      intro h
      simp only [collapseSpaces]
      rw [if_neg hcd, ih (List.chain'_cons.mp h).2]

/-- `collapseSpaces` only removes characters. -/
theorem mem_collapseSpaces (a : Char) (l : List Char) : a ∈ collapseSpaces l → a ∈ l := by
  induction l using collapseSpaces.induct with
  | case1 => simp [collapseSpaces]
  | case2 c => simp [collapseSpaces]
  | case3 c d t hcd ih =>
      intro h
      simp only [collapseSpaces] at h
      rw [if_pos hcd] at h
      exact List.mem_cons_of_mem c (ih h)
  | case4 c d t hcd ih =>
      intro h
      simp only [collapseSpaces] at h
      rw [if_neg hcd] at h
      rcases List.mem_cons.mp h with rfl | h'
      · exact List.mem_cons_self _ _
      · exact List.mem_cons_of_mem c (ih h')

/-- `collapseSpaces` removes only spaces, so the newline count is
unchanged. -/
theorem count_nl_collapseSpaces (l : List Char) :
    (collapseSpaces l).count '\n' = l.count '\n' := by
  induction l using collapseSpaces.induct with
  | case1 => rfl
  | case2 c => rfl
  | case3 c d t hcd ih =>
      simp only [collapseSpaces]
      rw [if_pos hcd, ih]
      have hc : ¬ c = '\n' := by rw [hcd.1]; decide
      simp [List.count_cons, hc]
  | case4 c d t hcd ih =>
      simp only [collapseSpaces]
      rw [if_neg hcd]
      simp only [List.count_cons, ih]

/-- `replaceTabs` is the identity on tab-free strings. -/
theorem replaceTabs_of_not_mem {l : List Char} (h : '\t' ∉ l) : replaceTabs l = l := by
  unfold replaceTabs
  rw [List.map_congr_left fun a ha => if_neg fun he : a = '\t' => h (he ▸ ha)]
  exact List.map_id l

/-- The output of `replaceTabs` is always tab-free. -/
theorem tab_not_mem_replaceTabs (l : List Char) : '\t' ∉ replaceTabs l := by
  intro h
  rw [replaceTabs, List.mem_map] at h
  obtain ⟨a, _, ha⟩ := h
  split_ifs at ha with h'
  · exact absurd ha (by decide)
  · exact h' ha

/-- `replaceTabs` touches no newline, so the newline count is
unchanged. -/
theorem count_nl_replaceTabs (l : List Char) :
    (replaceTabs l).count '\n' = l.count '\n' := by
  induction l with
  | nil => rfl
  | cons a t ih =>
      simp only [replaceTabs, List.map_cons, List.count_cons, beq_iff_eq] at *
      rw [ih]
      congr 1
      by_cases h : a = '\t'
      · subst h
        rw [if_pos rfl]
        decide
      · rw [if_neg h]

/-- `splitNl` never returns the empty list. -/
theorem splitNl_ne_nil (l : List Char) : splitNl l ≠ [] := by
  induction l with
  | nil => simp [splitNl]
  | cons c t ih =>
      simp only [splitNl]
      split_ifs with h
      · simp
      · cases ht : splitNl t <;> simp

/-- The first piece of `splitNl` is an initial segment of the string. -/
theorem splitNl_head_append (l : List Char) :
    ∀ h r, splitNl l = h :: r → ∃ s, l = h ++ s := by
  induction l with
  | nil =>
      intro h r he
      simp only [splitNl, List.cons.injEq] at he
      exact ⟨[], by rw [← he.1]; rfl⟩
  | cons c t ih =>
      intro h r he
      simp only [splitNl] at he
      split_ifs at he with hc
      · rw [List.cons.injEq] at he
        exact ⟨c :: t, by rw [← he.1]; rfl⟩
      · cases ht : splitNl t with
        | nil => exact absurd ht (splitNl_ne_nil t)
        | cons h' r' =>
            rw [ht, List.cons.injEq] at he
            obtain ⟨s, hs⟩ := ih h' r' ht
            refine ⟨s, ?_⟩
            rw [← he.1, List.cons_append, ← hs]

/-- Every piece of `splitNl` is a contiguous segment of the string. -/
theorem splitNl_decomp (l : List Char) :
    ∀ p ∈ splitNl l, ∃ a b, l = a ++ p ++ b := by
  induction l with
  | nil =>
      intro p hp
      simp only [splitNl, List.mem_singleton] at hp
      subst hp
      exact ⟨[], [], rfl⟩
  | cons c t ih =>
      intro p hp
      simp only [splitNl] at hp
      split_ifs at hp with hc
      · rcases List.mem_cons.mp hp with rfl | hp'
        · exact ⟨[], c :: t, rfl⟩
        · obtain ⟨a, b, hab⟩ := ih p hp'
          exact ⟨c :: a, b, by rw [hab]; simp⟩
      · cases ht : splitNl t with
        | nil => exact absurd ht (splitNl_ne_nil t)
        | cons h' r' =>
            rw [ht] at hp
            rcases List.mem_cons.mp hp with rfl | hp'
            · obtain ⟨s, hs⟩ := splitNl_head_append t h' r' ht
              exact ⟨[], s, by rw [hs]; simp⟩
            · have hmem : p ∈ splitNl t := by rw [ht]; exact List.mem_cons_of_mem h' hp'
              obtain ⟨a, b, hab⟩ := ih p hmem
              exact ⟨c :: a, b, by rw [hab]; simp⟩

/-- No piece of `splitNl` contains a newline. -/
theorem nl_not_mem_splitNl (l : List Char) : ∀ p ∈ splitNl l, '\n' ∉ p := by
  induction l with
  | nil =>
      intro p hp
      simp only [splitNl, List.mem_singleton] at hp
      subst hp
      exact List.not_mem_nil _
  | cons c t ih =>
      intro p hp
      simp only [splitNl] at hp
      split_ifs at hp with hc
      · rcases List.mem_cons.mp hp with rfl | hp'
        · exact List.not_mem_nil _
        · exact ih p hp'
      · cases ht : splitNl t with
        | nil => exact absurd ht (splitNl_ne_nil t)
        | cons h' r' =>
            rw [ht] at hp
            rcases List.mem_cons.mp hp with rfl | hp'
            · intro hmem
              rcases List.mem_cons.mp hmem with he | hmem'
              · exact hc he.symm
              · exact ih h' (by rw [ht]; exact List.mem_cons_self _ _) hmem'
            · exact ih p (by rw [ht]; exact List.mem_cons_of_mem h' hp')

/-- `splitNl` of a newline-free string is that string alone. -/
theorem splitNl_of_not_mem (l : List Char) (h : '\n' ∉ l) : splitNl l = [l] := by
  induction l with
  | nil => rfl
  | cons c t ih =>
      have hc : ¬ c = '\n' := fun e => h (e ▸ List.mem_cons_self c t)
      have ht : '\n' ∉ t := fun e => h (List.mem_cons_of_mem c e)
      simp only [splitNl]
      rw [if_neg hc, ih ht]

/-- Splitting after a newline-free piece peels it off. -/
theorem splitNl_append_nl (l t : List Char) (h : '\n' ∉ l) :
    splitNl (l ++ '\n' :: t) = l :: splitNl t := by
  induction l with
  | nil => simp [splitNl]
  | cons c l' ih =>
      have hc : ¬ c = '\n' := fun e => h (e ▸ List.mem_cons_self _ _)
      have hl' : '\n' ∉ l' := fun e => h (List.mem_cons_of_mem c e)
      simp only [List.cons_append, splitNl, List.append_eq]
      rw [if_neg hc, ih hl']

/-- `splitNl` undoes `joinNl` on nonempty lists of newline-free lines. -/
theorem splitNl_joinNl (ls : List (List Char)) :
    (∀ l ∈ ls, '\n' ∉ l) → ls ≠ [] → splitNl (joinNl ls) = ls := by
  induction ls with
  | nil => intro _ h; exact absurd rfl h
  | cons l ls' ih =>
      intro hnl _
      cases ls' with
      | nil => exact splitNl_of_not_mem l (hnl l (List.mem_cons_self _ _))
      | cons l₂ ls'' =>
          rw [show joinNl (l :: l₂ :: ls'') = l ++ '\n' :: joinNl (l₂ :: ls'') from rfl]
          rw [splitNl_append_nl _ _ (hnl l (List.mem_cons_self _ _))]
          rw [ih (fun x hx => hnl x (List.mem_cons_of_mem _ hx)) (by simp)]

/-- The number of pieces of `splitNl` is the newline count plus one. -/
theorem splitNl_length (l : List Char) : (splitNl l).length = l.count '\n' + 1 := by
  induction l with
  | nil => rfl
  | cons c t ih =>
      simp only [splitNl]
      split_ifs with hc
      · subst hc
        simp only [List.length_cons, List.count_cons_self, ih]
      · cases ht : splitNl t with
        | nil => exact absurd ht (splitNl_ne_nil t)
        | cons h' r' =>
            rw [ht] at ih
            simp only [List.length_cons] at ih ⊢
            simp only [List.count_cons, beq_iff_eq, if_neg hc]
            omega

/-- Every character of `joinNl` is a newline or a character of one of
the lines. -/
theorem mem_joinNl (ls : List (List Char)) :
    ∀ a ∈ joinNl ls, a = '\n' ∨ ∃ l ∈ ls, a ∈ l := by
  induction ls with
  | nil => intro a ha; exact absurd ha (List.not_mem_nil a)
  | cons l ls' ih =>
      cases ls' with
      | nil =>
          intro a ha
          exact Or.inr ⟨l, List.mem_cons_self _ _, ha⟩
      | cons l₂ ls'' =>
          intro a ha
          rw [show joinNl (l :: l₂ :: ls'') = l ++ '\n' :: joinNl (l₂ :: ls'') from rfl] at ha
          rcases List.mem_append.mp ha with h1 | h2
          · exact Or.inr ⟨l, List.mem_cons_self _ _, h1⟩
          · rcases List.mem_cons.mp h2 with rfl | h3
            · exact Or.inl rfl
            · rcases ih a h3 with h4 | ⟨l', hl', ha'⟩
              · exact Or.inl h4
              · exact Or.inr ⟨l', List.mem_cons_of_mem _ hl', ha'⟩

/-- Joining space-run-free lines with newlines keeps the invariant. -/
theorem noSS_joinNl (ls : List (List Char)) :
    (∀ l ∈ ls, noSS l) → noSS (joinNl ls) := by
  induction ls with
  | nil => intro _; exact List.chain'_nil
  | cons l ls' ih =>
      intro hss
      cases ls' with
      | nil => exact hss l (List.mem_cons_self _ _)
      | cons l₂ ls'' =>
          rw [show joinNl (l :: l₂ :: ls'') = l ++ '\n' :: joinNl (l₂ :: ls'') from rfl]
          refine List.chain'_append.mpr ⟨hss l (List.mem_cons_self _ _), ?_, ?_⟩
          · refine List.chain'_cons'.mpr
              ⟨?_, ih fun x hx => hss x (List.mem_cons_of_mem _ hx)⟩
            intro y _
            rintro ⟨h1, _⟩
            exact absurd h1 (by decide)
          · intro x _ y hy
            rintro ⟨_, h2⟩
            simp only [List.head?_cons, Option.mem_def, Option.some.injEq] at hy
            exact absurd (hy ▸ h2) (by decide)

/-- A piece of `splitNl` inherits the no-double-space invariant. -/
theorem noSS_splitNl (l : List Char) (h : noSS l) : ∀ p ∈ splitNl l, noSS p := by
  intro p hp
  obtain ⟨a, b, hab⟩ := splitNl_decomp l p hp
  subst hab
  exact h.infix ⟨a, b, rfl⟩

/-! ## Claims -/

/-- Claim C1: the claim states that for every input image and threshold,
`apply_threshold` returns a single-channel image whose pixels are all 0
or 255.  The code instead raises a `cv2.error` on every input:
`to_grayscale` yields a mode-"L" image and `pil_to_cv2` feeds its
2-D array to `cv2.cvtColor(..., COLOR_RGB2BGR)`, which requires 3 or 4
channels.  No image is ever returned. -/
theorem c1_apply_threshold_always_raises (image : Img) (threshold_value : Int) :
    apply_threshold image threshold_value = .error .invalidChannels :=
  apply_threshold_raises image threshold_value

/-- Claim C2: with `grayscale`, `denoise_enabled`, `deskew_enabled` and
`threshold_enabled` all explicitly false, `preprocess_image` returns the
input image unchanged (same constructor, same pixel rows). -/
theorem c2_preprocess_all_disabled_identity (ops : ExtOps) (image : Img)
    (config : PreConfig)
    (hg : config.grayscale = some false)
    (hd : config.denoise_enabled = some false)
    (hk : config.deskew_enabled = some false)
    (ht : config.threshold_enabled = some false) :
    preprocess_image ops image config = .ok image := by
  simp only [preprocess_image, hg, hd, hk, ht, Option.getD_some, Bool.false_eq_true,
    if_false]
  rfl

/-- Witness for claim C2 at a concrete color image and the all-off
config. -/
theorem c2_witness : preprocess_image opsNoLines imgC1 cfgAllOff = .ok imgC1 :=
  c2_preprocess_all_disabled_identity opsNoLines imgC1 cfgAllOff rfl rfl rfl rfl

/-- Claim C3, counterexample: on the confidence column `[80, 0]` the code
reports 80 (the filter `int(conf) > 0` drops the measured 0), while the
claim's average-excluding-only-minus-one is 40. -/
theorem c3_zero_confidence_counterexample :
    (extract_text_with_confidence ⟨["word"], [80, 0]⟩).2 ≠ claimedAvgConfidence [80, 0] := by
  simp [extract_text_with_confidence, claimedAvgConfidence]
  norm_num

/-- Claim C3, amended: the reported confidence is the arithmetic mean of
the strictly positive confidences (the -1 sentinel and any zero or
negative entries are all excluded), or 0 when none are strictly
positive. -/
theorem c3_positive_mean (data : TessData) :
    (extract_text_with_confidence data).2 = positiveMeanConfidence data.conf := rfl

/-- Claim C4, counterexample: `remove_extra_whitespace` is not
idempotent.  On `"a\t\tb"` the space collapse runs before the tab
conversion, so the first pass yields `"a  b"` and the second pass
collapses the new space run to `"a b"`. -/
theorem c4_idempotence_counterexample :
    remove_extra_whitespace (remove_extra_whitespace ("a\t\tb".toList)) ≠
      remove_extra_whitespace ("a\t\tb".toList) := by
  decide

/-- Claim C4, amended: `remove_extra_whitespace` is idempotent on every
input without a tab character (and in particular on its own output, which
is always tab-free), and the line count of the output always equals —
hence never exceeds — the line count of the input. -/
theorem c4_tabfree_idempotent_and_line_count (text : List Char) :
    ('\t' ∉ text →
        remove_extra_whitespace (remove_extra_whitespace text) =
          remove_extra_whitespace text) ∧
      (splitNl (remove_extra_whitespace text)).length ≤ (splitNl text).length := by
  constructor
  · intro htab
    have htab1 : '\t' ∉ collapseSpaces text := fun h => htab (mem_collapseSpaces _ _ h)
    have hrt : replaceTabs (collapseSpaces text) = collapseSpaces text :=
      replaceTabs_of_not_mem htab1
    set L := (splitNl (collapseSpaces text)).map pyStrip with hL
    have hfx : remove_extra_whitespace text = joinNl L := by
      rw [show remove_extra_whitespace text =
          joinNl ((splitNl (replaceTabs (collapseSpaces text))).map pyStrip) from rfl, hrt]
    have hLnl : ∀ l ∈ L, '\n' ∉ l := by
      intro l hl
      obtain ⟨l₀, hl₀, rfl⟩ := List.mem_map.mp hl
      exact fun hc => nl_not_mem_splitNl _ l₀ hl₀ (mem_pyStrip hc)
    have hLnoSS : ∀ l ∈ L, noSS l := by
      intro l hl
      obtain ⟨l₀, hl₀, rfl⟩ := List.mem_map.mp hl
      exact noSS_pyStrip (noSS_splitNl _ (noSS_collapseSpaces text) l₀ hl₀)
    have hLne : L ≠ [] := by
      rw [hL]
      intro h
      exact splitNl_ne_nil (collapseSpaces text) (List.map_eq_nil_iff.mp h)
    have hLtab : '\t' ∉ joinNl L := by
      intro h
      rcases mem_joinNl L '\t' h with h1 | ⟨l, hl, hmem⟩
      · exact absurd h1 (by decide)
      · obtain ⟨l₀, hl₀, rfl⟩ := List.mem_map.mp hl
        obtain ⟨a, b, hab⟩ := splitNl_decomp _ l₀ hl₀
        refine htab1 ?_
        rw [hab]
        exact List.mem_append.mpr (Or.inl
          (List.mem_append.mpr (Or.inr (mem_pyStrip hmem))))
    rw [hfx]
    rw [show remove_extra_whitespace (joinNl L) =
        joinNl ((splitNl (replaceTabs (collapseSpaces (joinNl L)))).map pyStrip) from rfl]
    rw [collapseSpaces_of_noSS _ (noSS_joinNl L hLnoSS),
      replaceTabs_of_not_mem hLtab, splitNl_joinNl L hLnl hLne]
    congr 1
    rw [hL, List.map_map]
    exact List.map_congr_left fun a _ => pyStrip_idem a
  · have hnl : ∀ l ∈ (splitNl (replaceTabs (collapseSpaces text))).map pyStrip,
        '\n' ∉ l := by
      intro l hl
      obtain ⟨l₀, hl₀, rfl⟩ := List.mem_map.mp hl
      exact fun hc => nl_not_mem_splitNl _ l₀ hl₀ (mem_pyStrip hc)
    have hne : (splitNl (replaceTabs (collapseSpaces text))).map pyStrip ≠ [] := by
      intro h
      exact splitNl_ne_nil (replaceTabs (collapseSpaces text)) (List.map_eq_nil_iff.mp h)
    refine le_of_eq ?_
    calc (splitNl (remove_extra_whitespace text)).length
        = ((splitNl (replaceTabs (collapseSpaces text))).map pyStrip).length := by
          rw [show remove_extra_whitespace text =
              joinNl ((splitNl (replaceTabs (collapseSpaces text))).map pyStrip) from rfl,
            splitNl_joinNl _ hnl hne]
      _ = (splitNl (replaceTabs (collapseSpaces text))).length :=
          List.length_map _ _
      _ = (splitNl text).length := by
          rw [splitNl_length, splitNl_length, count_nl_replaceTabs,
            count_nl_collapseSpaces]

/-- Witness for claim C4 at a concrete tab-free input. -/
theorem c4_witness :
    remove_extra_whitespace (remove_extra_whitespace ("ab  cd \n x".toList)) =
      remove_extra_whitespace ("ab  cd \n x".toList) :=
  (c4_tabfree_idempotent_and_line_count ("ab  cd \n x".toList)).1 (by decide)

/-- Claim C5, counterexample: on the scenario input the code returns
`"Th1s is\na test.\n"`, not the claimed `"Th1s is\na test."`: the
trailing CRLF becomes an empty final line, `remove_extra_whitespace`
strips within lines but keeps the line itself, and blank-line removal is
off. -/
theorem c5_clean_text_scenario_counterexample :
    clean_text ("Th1s  is\r\na   test.\r\n".toList) true true false true ≠
      "Th1s is\na test.".toList := by
  decide

/-- Claim C5, amended: the scenario yields `"Th1s is\na test.\n"` — CRLF
normalized to LF, space runs collapsed, per-line trailing whitespace
stripped, and the empty final line (hence a trailing newline)
preserved. -/
theorem c5_clean_text_scenario_amended :
    clean_text ("Th1s  is\r\na   test.\r\n".toList) true true false true =
      "Th1s is\na test.\n".toList := by
  decide

/-- Claim C6: whenever the estimated skew angle exceeds `max_angle` in
absolute value, `deskew` returns the input image unchanged. -/
theorem c6_deskew_guard_returns_input (ops : ExtOps) (image : Img) (max_angle : ℚ)
    (h : |estimate_skew_angle ops image| > max_angle) :
    deskew ops image max_angle = .ok image := by
  unfold deskew
  rw [if_pos h]

/-- Witness for claim C6: with one detected line at 120 degrees the
estimated angle is 30, which exceeds `max_angle = 10`. -/
theorem c6_witness : deskew opsSkew30 imgG1 10 = .ok imgG1 :=
  c6_deskew_guard_returns_input opsSkew30 imgG1 10 (by
    have h30 : estimate_skew_angle opsSkew30 imgG1 = 30 := by
      simp [estimate_skew_angle, opsSkew30, imgG1, medianQ, degreesQ, piQ, grayRowsOf,
        cvtGRAY2BGR, cvtBGR2GRAY, List.insertionSort, List.orderedInsert]
      norm_num
    rw [h30]
    norm_num)

/-- Claim C7: with no detected lines the estimated skew angle is 0 (the
claim's first half holds), but `deskew` then proceeds to the rotation
path and `pil_to_cv2` raises the channel-count `cv2.error` on a
mode-"L" image instead of passing it through unchanged. -/
theorem c7_no_lines_zero_angle_deskew_raises :
    estimate_skew_angle opsNoLines imgG1 = 0 ∧
      deskew opsNoLines imgG1 10 = .error .invalidChannels := by
  refine ⟨rfl, ?_⟩
  have h : estimate_skew_angle opsNoLines imgG1 = 0 := rfl
  simp only [deskew, h, abs_zero]
  norm_num
  rfl

/-- Claim C8: `denoise` at any strength equals `denoise` at the strength
clamped to [1, 30] (the source clamps explicitly), and `apply_threshold`
at any threshold equals `apply_threshold` at the threshold clamped to
[0, 255] — the latter holds degenerately, because `apply_threshold`
raises the same channel-count error for every threshold value before the
threshold is ever used. -/
theorem c8_clamping_equivalence (ops : ExtOps) (image : Img) (s t : Int) :
    denoise ops image s = denoise ops image (max 1 (min 30 s)) ∧
      apply_threshold image t = apply_threshold image (max 0 (min 255 t)) := by
  constructor
  · simp only [denoise, clamp_strength_idem]
  · rw [apply_threshold_raises, apply_threshold_raises]

/-- Claim C9: a failing unit in the middle of a batch is recorded as an
error entry against its identifier while every other unit is still
processed; successes and errors each keep input order. -/
theorem c9_batch_error_isolated (proc : String × Img → Except String String)
    (pre post : List (String × Img)) (u : String × Img) (e : String)
    (h : proc u = .error e) :
    run_batch proc (pre ++ u :: post) =
      (batch_oks proc pre ++ batch_oks proc post,
       batch_errs proc pre ++ (u.1, e) :: batch_errs proc post) := by
  simp [run_batch_spec, batch_oks, batch_errs, List.filterMap_append,
    List.filterMap_cons, h]

/-- Witness for claim C9: the spec's three-unit scenario, where the
second unit fails during recognition. -/
theorem c9_witness :
    run_batch proc3 ([("img1", imgG1)] ++ ("img2", imgG1) :: [("img3", imgC1)]) =
      ([("img1", "text of img1"), ("img3", "text of img3")],
       [("img2", "ocr failed")]) := by
  have h := c9_batch_error_isolated proc3 [("img1", imgG1)] [("img3", imgC1)]
    ("img2", imgG1) "ocr failed" rfl
  exact h.trans (by rfl)

/-- Claim C10: `validate_image_for_ocr` is total: every input (the
`None` input included) yields a `(bool, reason)` pair, and every
non-valid outcome — malformed images whose attribute accesses raise
included — carries an error description. -/
theorem c10_validate_total :
    validate_image_for_ocr none = (false, some "Image is None") ∧
      ∀ image : Option PilImage,
        validate_image_for_ocr image = (true, none) ∨
          ∃ m, validate_image_for_ocr image = (false, some m) := by
  refine ⟨rfl, fun image => ?_⟩
  rcases image with _ | img
  · right; exact ⟨_, rfl⟩
  · rcases hs : img.size with e | wh
    · right
      simp only [validate_image_for_ocr, hs]
      exact ⟨_, rfl⟩
    · rcases wh with ⟨w, h⟩
      simp only [validate_image_for_ocr, hs]
      split_ifs with h1
      · right; exact ⟨_, rfl⟩
      · rcases hc : img.convertL_data with e | pixels
        · simp only [hc]
          right; exact ⟨_, rfl⟩
        · simp only [hc]
          split_ifs with h2 h3
          · right; exact ⟨_, rfl⟩
          · right; exact ⟨_, rfl⟩
          · left; rfl

end SnapScribe
